import Mathlib

/-!
Shallow embedding of the core of `src/EpicEXE.py` (EpicEXE ROM feature
patcher): the byte-level read/write primitives, the patch-status
classification and aggregation logic of `add_feature_item`, the
apply loops of `show_context_menu`, and the INI parser `load_ini`.

Bytes are modelled as natural numbers (each value produced by the
parser is checked `< 256`, mirroring Python's `bytes()`); a file on
disk is a `List Nat` of its bytes.
-/

namespace EpicEXE

/-- `read_rom_bytes(rom_path, offset, length)`: `f.seek(offset)` followed by
`f.read(length)`. Python returns the bytes from `offset` up to `length`
of them; past end-of-file it silently returns fewer (possibly zero) bytes. -/
def readRomBytes (file : List Nat) (offset length : Nat) : List Nat :=
  (file.drop offset).take length

/-- `write_rom_bytes(rom_path, offset, data)`: open `rb+`, `seek(offset)`,
`write(data)`. Seeking past end-of-file and writing zero-fills the gap
(POSIX semantics), so the file never shrinks and may grow. -/
def writeRomBytes (file : List Nat) (offset : Nat) (data : List Nat) : List Nat :=
  file.take offset ++ List.replicate (offset - file.length) 0 ++ data
    ++ file.drop (offset + data.length)

/-- One patch record as built by `load_ini`:
`{"offset": ..., "original": ..., "modified": ...}`. -/
structure Patch where
  offset : Nat
  original : List Nat
  modified : List Nat
deriving DecidableEq, Repr

/-- One feature record as built by `load_ini`. The `name` and
`description` keys can be absent (the accumulator that exists before the
first section header has neither), hence `Option`. -/
structure Feature where
  name : Option String
  description : Option String
  patches : List Patch
deriving DecidableEq, Repr

/-- The four per-patch statuses of `add_feature_item`:
`"✅ mod"`, `"🔄 og"`, `"⚠️ unk"`, `"❌"`. -/
inductive PatchStatus
  | modified
  | original
  | unknown
  | readError
deriving DecidableEq, Repr

/-- The two context-menu actions of `show_context_menu`:
"Set All Modified" / "Set All Original". -/
inductive TargetState
  | modified
  | original
deriving DecidableEq, Repr

/-- The byte sequence a context-menu action writes for one patch. -/
def selectData : TargetState → Patch → List Nat
  | .modified, p => p.modified
  | .original, p => p.original

/-- The apply loop of `show_context_menu`:
`for patch in feature["patches"]: write_rom_bytes(rom, patch["offset"], data)`. -/
def applyFeature (file : List Nat) (patches : List Patch) (t : TargetState) : List Nat :=
  patches.foldl (fun f p => writeRomBytes f p.offset (selectData t p)) file

/-- The comparison chain of `add_feature_item` lines 178-183: current bytes
against `patch["modified"]` first, then `patch["original"]`, else unknown. -/
def classify (current : List Nat) (p : Patch) : PatchStatus :=
  if current = p.modified then .modified
  else if current = p.original then .original
  else .unknown

/-- One iteration of the status loop of `add_feature_item` lines 176-185:
the `try` block reads `len(patch["modified"])` bytes and classifies them;
the only failing operation in the model is opening the ROM file
(`rom = none`), in which case the `except` branch yields `"❌"`. -/
def patchStatus (rom : Option (List Nat)) (p : Patch) : PatchStatus :=
  match rom with
  | none => .readError
  | some file => classify (readRomBytes file p.offset p.modified.length) p

/-- `max(iterable, key=lambda s => statuses.count(s))` on a nonempty
iterable given as `x :: xs`: Python's `max` keeps the current best and
replaces it only on a strictly larger key, so the earliest maximal
element of the iteration order wins. -/
def pyMaxCount (statuses : List PatchStatus) (x : PatchStatus)
    (xs : List PatchStatus) : PatchStatus :=
  xs.foldl (fun best y => if statuses.count y > statuses.count best then y else best) x

/-- `set(statuses)` in line 186 iterates the distinct statuses in an order
the language does not specify (string hashing is randomized per process):
`enum` is a faithful model of one possible iteration order of
`set(statuses)` iff it is duplicate-free and has exactly the members of
`statuses`. -/
def IsSetEnum (enum statuses : List PatchStatus) : Prop :=
  enum.Nodup ∧ ∀ s, s ∈ enum ↔ s ∈ statuses

/-- Every patch's write for action `t` stays inside the file. -/
abbrev InBounds (ps : List Patch) (t : TargetState) (file : List Nat) : Prop :=
  ∀ p ∈ ps, p.offset + (selectData t p).length ≤ file.length

/-- Byte position `i` lies in the range patch `p` writes for action `t`. -/
abbrev covers (t : TargetState) (p : Patch) (i : Nat) : Prop :=
  p.offset ≤ i ∧ i < p.offset + (selectData t p).length

/-- The byte ranges of two patches do not overlap. -/
abbrev rangesDisjoint (p q : Patch) : Prop :=
  p.offset + p.original.length ≤ q.offset ∨ q.offset + q.original.length ≤ p.offset

/-- The patches of a feature have pairwise non-overlapping byte ranges. -/
abbrev PatchesDisjoint (ps : List Patch) : Prop :=
  ps.Pairwise rangesDisjoint

/-- The byte the apply loop leaves at position `i`: the byte of the last
patch in list order whose range covers `i`, if any (later writes win). -/
def lastCover (t : TargetState) (i : Nat) : List Patch → Option Nat
  | [] => none
  | p :: ps =>
    match lastCover t i ps with
    | some b => some b
    | none =>
      if p.offset ≤ i ∧ i < p.offset + (selectData t p).length then
        (selectData t p)[i - p.offset]?
      else none

/-- The Python exceptions `load_ini` can raise: `ValueError` from
`int(val, 16)` / `hex_to_bytes` / `bytes(...)`, `KeyError` from
`current_feature.pop(...)` on a missing key. Both are unhandled. -/
inductive PyErr
  | valueError
  | keyError
deriving DecidableEq, Repr

/-- Python strings are sequences of code points; lines of the
definitions file are modelled as `List Char` so that every string
operation of the parser is structural and evaluable. -/
def dropLeadingWs : List Char → List Char
  | [] => []
  | c :: cs => if c.isWhitespace then dropLeadingWs cs else c :: cs

/-- `str.strip()`: remove leading and trailing whitespace. -/
def pyStrip (s : List Char) : List Char :=
  dropLeadingWs (dropLeadingWs s.reverse).reverse

/-- `str.split()` with no argument: split on runs of whitespace,
producing no empty pieces. `acc` holds the current piece reversed. -/
def pySplitWsAux : List Char → List Char → List (List Char)
  | [], acc => if acc.isEmpty then [] else [acc.reverse]
  | c :: cs, acc =>
    if c.isWhitespace then
      if acc.isEmpty then pySplitWsAux cs [] else acc.reverse :: pySplitWsAux cs []
    else pySplitWsAux cs (c :: acc)

/-- `str.split()` with no argument. -/
def pySplitWs (s : List Char) : List (List Char) :=
  pySplitWsAux s []

/-- `str.lower()` (ASCII letters, all these files contain). -/
def pyLower (s : List Char) : List Char :=
  s.map Char.toLower

/-- `line.split("=", 1)`: `none` when `"=" not in line`, otherwise the
part before the first `=` and the part after it. -/
def splitEqOnce : List Char → Option (List Char × List Char)
  | [] => none
  | c :: cs =>
    if c = '=' then some ([], cs)
    else (splitEqOnce cs).map fun kv => (c :: kv.1, kv.2)

/-- One hexadecimal digit of `int(tok, 16)`. -/
def hexDigit? (c : Char) : Option Nat :=
  if '0' ≤ c ∧ c ≤ '9' then some (c.toNat - '0'.toNat)
  else if 'a' ≤ c ∧ c ≤ 'f' then some (c.toNat - 'a'.toNat + 10)
  else if 'A' ≤ c ∧ c ≤ 'F' then some (c.toNat - 'A'.toNat + 10)
  else none

/-- Value of a nonempty all-hex-digit token. -/
def hexDigits? (s : List Char) : Option Nat :=
  match s with
  | [] => none
  | _ :: _ => s.foldl (fun acc c => acc.bind fun n => (hexDigit? c).map fun d => 16 * n + d)
      (some 0)

/-- Python `int(tok, 16)` on the token shapes this format uses: optional
surrounding whitespace, optional `0x`/`0X` prefix, then hex digits
(on anything unparsable Python raises `ValueError`, here `none`; the
negative-sign and underscore-separator forms of Python's literal
grammar, which no definitions file uses, are not modelled). -/
def pyIntHex? (s : List Char) : Option Nat :=
  match pyStrip s with
  | '0' :: 'x' :: rest => hexDigits? rest
  | '0' :: 'X' :: rest => hexDigits? rest
  | t => hexDigits? t

/-- `hex_to_bytes(hex_str)`: `bytes(int(b, 16) for b in hex_str.strip().split())`.
`bytes` additionally requires every value to be in `0..255`
(else `ValueError`). -/
def hexToBytes? (s : List Char) : Option (List Nat) :=
  (pySplitWs (pyStrip s)).mapM
    fun tok => (pyIntHex? tok).bind fun v => if v < 256 then some v else none

/-- The accumulator dict `current_feature` of `load_ini`: the keys
`name`, `description`, `offset`, `original`, `modified` may each be
present or absent, plus the `patches` list. -/
structure CurFeature where
  name : Option String
  description : Option String
  offset : Option Nat
  original : Option (List Nat)
  modified : Option (List Nat)
  patches : List Patch
deriving DecidableEq, Repr

/-- The initial accumulator `{"patches": []}` of line 129. -/
def initCur : CurFeature :=
  ⟨none, none, none, none, none, []⟩

/-- The fresh accumulator built at a section header (line 137):
`{"name": f"Feature {section_title}", "description": "", "patches": []}`. -/
def headerCur (title : List Char) : CurFeature :=
  ⟨some (String.mk ("Feature ".data ++ title)), some "", none, none, none, []⟩

/-- Closing the pending triple on a repeated `offset` key (lines 150-155):
`pop("offset")`, `pop("original")`, `pop("modified")` — a missing key
raises `KeyError`. -/
def closePending (c : CurFeature) : Except PyErr CurFeature :=
  match c.offset, c.original, c.modified with
  | some o, some a, some b =>
      .ok ⟨c.name, c.description, none, none, none, c.patches ++ [⟨o, a, b⟩]⟩
  | _, _, _ => .error .keyError

/-- The record appended to `self.features`. -/
def toFeature (c : CurFeature) : Feature :=
  ⟨c.name, c.description, c.patches⟩

/-- One `key = value` line of the loop body (lines 140-160), after the
key has been stripped and lowercased and the value stripped. -/
def processKeyVal (key val : List Char) (c : CurFeature) : Except PyErr CurFeature :=
  if key = "name".data then .ok { c with name := some (String.mk val) }
  else if key = "description".data ∨ key = "hackdescription".data then
    .ok { c with description := some (String.mk val) }
  else if key = "offset".data then
    (if c.offset.isSome then closePending c else .ok c).bind fun c =>
      match pyIntHex? val with
      | none => .error .valueError
      | some o => .ok { c with offset := some o }
  else if key = "original".data then
    match hexToBytes? val with
    | none => .error .valueError
    | some bs => .ok { c with original := some bs }
  else if key = "modified".data then
    match hexToBytes? val with
    | none => .error .valueError
    | some bs => .ok { c with modified := some bs }
  else .ok c

/-- End-of-input handling (lines 162-170): if `offset`, `original` and
`modified` are all present the triple becomes one more patch; then the
accumulator is appended to `self.features` iff its patch list is
nonempty. -/
def finishCur (feats : List Feature) (c : CurFeature) : List Feature :=
  let c :=
    match c.offset, c.original, c.modified with
    | some o, some a, some b =>
        ⟨c.name, c.description, none, none, none, c.patches ++ [⟨o, a, b⟩]⟩
    | _, _, _ => c
  if c.patches ≠ [] then feats ++ [toFeature c] else feats

/-- The main loop of `load_ini` over the preprocessed lines. On an
unhandled exception the features appended to `self.features` so far
survive (the list is mutated in place), so the result pairs the feature
list with the optional exception. -/
def loadIniAux : List (List Char) → List Feature → CurFeature → List Feature × Option PyErr
  | [], feats, c => (finishCur feats c, none)
  | line :: rest, feats, c =>
    if line.head? = some '[' ∧ line.getLast? = some ']' then
      let feats := if c.patches ≠ [] then feats ++ [toFeature c] else feats
      loadIniAux rest feats (headerCur (line.drop 1).dropLast)
    else
      match splitEqOnce line with
      | none => loadIniAux rest feats c
      | some (k, v) =>
        match processKeyVal (pyLower (pyStrip k)) (pyStrip v) c with
        | .error e => (feats, some e)
        | .ok c => loadIniAux rest feats c

/-- Line 123: keep `line.strip()` for every line that is nonempty after
stripping and does not start with `#`. -/
def preprocess (lines : List String) : List (List Char) :=
  (lines.map fun l => pyStrip l.data).filter fun l => l ≠ [] ∧ l.head? ≠ some '#'

/-- `load_ini` on the text lines of the definitions file: the parsed
feature list (as left in `self.features`) together with the unhandled
exception, if one was raised. -/
def loadIni (lines : List String) : List Feature × Option PyErr :=
  loadIniAux (preprocess lines) [] initCur

/-- Line 187: `f"📛 {feature['name']} – {feature['description']} [{status}]"`
— subscripting a dict with a missing key raises `KeyError`. -/
def displayLine (f : Feature) (status : String) : Except PyErr String :=
  match f.name with
  | none => .error .keyError
  | some n =>
    match f.description with
    | none => .error .keyError
    | some d => .ok ("📛 " ++ n ++ " – " ++ d ++ " [" ++ status ++ "]")

/-! ### Helper lemmas about the write and apply primitives -/

theorem writeRomBytes_length (file : List Nat) (o : Nat) (d : List Nat) :
    (writeRomBytes file o d).length = max file.length (o + d.length) := by
  simp only [writeRomBytes, List.length_append, List.length_take, List.length_drop,
    List.length_replicate]
  omega

theorem writeRomBytes_length_of_le {file : List Nat} {o : Nat} {d : List Nat}
    (h : o + d.length ≤ file.length) : (writeRomBytes file o d).length = file.length := by
  rw [writeRomBytes_length]; omega

theorem writeRomBytes_getElem? {file : List Nat} {o : Nat} {d : List Nat}
    (h : o + d.length ≤ file.length) (i : Nat) :
    (writeRomBytes file o d)[i]? =
      if o ≤ i ∧ i < o + d.length then d[i - o]? else file[i]? := by
  have hrep : o - file.length = 0 := by omega
  have htake : (file.take o).length = o := by rw [List.length_take]; omega
  have hwrite : writeRomBytes file o d = file.take o ++ (d ++ file.drop (o + d.length)) := by
    simp [writeRomBytes, hrep]
  rw [hwrite, List.getElem?_append, htake]
  by_cases h1 : i < o
  · rw [if_pos h1, List.getElem?_take, if_pos h1,
      if_neg (show ¬ (o ≤ i ∧ i < o + d.length) by omega)]
  · rw [if_neg h1, List.getElem?_append]
    by_cases h2 : i < o + d.length
    · rw [if_pos (show i - o < d.length by omega),
        if_pos (show o ≤ i ∧ i < o + d.length by omega)]
    · rw [if_neg (show ¬ i - o < d.length by omega), List.getElem?_drop,
        if_neg (show ¬ (o ≤ i ∧ i < o + d.length) by omega)]
      congr 1
      omega

theorem applyFeature_nil (file : List Nat) (t : TargetState) :
    applyFeature file [] t = file := rfl

theorem applyFeature_cons (file : List Nat) (p : Patch) (ps : List Patch) (t : TargetState) :
    applyFeature file (p :: ps) t =
      applyFeature (writeRomBytes file p.offset (selectData t p)) ps t := rfl

theorem applyFeature_length {ps : List Patch} {t : TargetState} {file : List Nat}
    (h : InBounds ps t file) : (applyFeature file ps t).length = file.length := by
  induction ps generalizing file with
  | nil => rfl
  | cons p ps ih =>
    have hp := h p (List.mem_cons_self p ps)
    have h1 : (writeRomBytes file p.offset (selectData t p)).length = file.length :=
      writeRomBytes_length_of_le hp
    rw [applyFeature_cons, ih fun q hq => by rw [h1]; exact h q (List.mem_cons_of_mem p hq), h1]

theorem lastCover_nil (t : TargetState) (i : Nat) : lastCover t i [] = none := rfl

theorem lastCover_cons (t : TargetState) (i : Nat) (p : Patch) (ps : List Patch) :
    lastCover t i (p :: ps) =
      match lastCover t i ps with
      | some b => some b
      | none =>
        if p.offset ≤ i ∧ i < p.offset + (selectData t p).length then
          (selectData t p)[i - p.offset]?
        else none := rfl

theorem applyFeature_getElem? {ps : List Patch} {t : TargetState} {file : List Nat}
    (h : InBounds ps t file) (i : Nat) :
    (applyFeature file ps t)[i]? = (lastCover t i ps).or file[i]? := by
  induction ps generalizing file with
  | nil => rfl
  | cons p ps ih =>
    have hp := h p (List.mem_cons_self p ps)
    have h1 : (writeRomBytes file p.offset (selectData t p)).length = file.length :=
      writeRomBytes_length_of_le hp
    rw [applyFeature_cons, ih fun q hq => by rw [h1]; exact h q (List.mem_cons_of_mem p hq)]
    rw [lastCover_cons]
    cases hlc : lastCover t i ps with
    | some b => rfl
    | none =>
      simp only [Option.none_or]
      rw [writeRomBytes_getElem? hp i]
      by_cases hc : p.offset ≤ i ∧ i < p.offset + (selectData t p).length
      · obtain ⟨b, hb⟩ : ∃ b, (selectData t p)[i - p.offset]? = some b :=
          ⟨_, List.getElem?_eq_getElem (by omega)⟩

        rw [if_pos hc, if_pos hc, hb]
        rfl
      · rw [if_neg hc, if_neg hc]
        rfl

theorem lastCover_eq_none {ps : List Patch} {t : TargetState} {i : Nat}
    (h : ∀ p ∈ ps, ¬ covers t p i) : lastCover t i ps = none := by
  induction ps with
  | nil => rfl
  | cons p ps ih =>
    rw [lastCover_cons, ih fun q hq => h q (List.mem_cons_of_mem p hq)]
    exact if_neg (h p (List.mem_cons_self p ps))

theorem lastCover_original_of_mem {ps : List Patch} {p : Patch} {i : Nat}
    (hd : PatchesDisjoint ps) (hp : p ∈ ps) (hc : covers .original p i) :
    lastCover .original i ps = p.original[i - p.offset]? := by
  induction ps with
  | nil => cases hp
  | cons q ps ih =>
    obtain ⟨hdq, hdps⟩ := List.pairwise_cons.mp hd
    rcases List.mem_cons.mp hp with rfl | hmem
    · have hnone : lastCover .original i ps = none := by
        refine lastCover_eq_none fun r hr hcr => ?_
        have := hdq r hr
        obtain ⟨h1, h2⟩ := hc
        obtain ⟨h3, h4⟩ := hcr
        simp only [selectData] at h2 h4
        rcases this with h5 | h5 <;> omega
      rw [lastCover_cons, hnone, if_pos hc]
      rfl
    · rw [lastCover_cons, ih hdps hmem]
      obtain ⟨b, hb⟩ : ∃ b, p.original[i - p.offset]? = some b := by
        obtain ⟨h1, h2⟩ := hc
        simp only [selectData] at h2
        exact ⟨_, List.getElem?_eq_getElem (by omega)⟩
      rw [hb]

theorem readRomBytes_length (file : List Nat) (o l : Nat) :
    (readRomBytes file o l).length = min l (file.length - o) := by
  simp [readRomBytes]

theorem readRomBytes_getElem? (file : List Nat) (o l k : Nat) :
    (readRomBytes file o l)[k]? = if k < l then file[o + k]? else none := by
  simp [readRomBytes, List.getElem?_take, List.getElem?_drop]

theorem readRomBytes_eq {file d : List Nat} {o l : Nat} (hlen : d.length = l)
    (h : ∀ k, k < l → file[o + k]? = d[k]?) :
    readRomBytes file o l = d := by
  refine List.ext_getElem? fun k => ?_
  rw [readRomBytes_getElem?]
  by_cases hk : k < l
  · rw [if_pos hk, h k hk]
  · rw [if_neg hk]
    exact (List.getElem?_eq_none (by omega)).symm

theorem pyMaxCount_cons (statuses : List PatchStatus) (x y : PatchStatus)
    (ys : List PatchStatus) :
    pyMaxCount statuses x (y :: ys) =
      pyMaxCount statuses (if statuses.count y > statuses.count x then y else x) ys := rfl

theorem pyMaxCount_mem (statuses : List PatchStatus) (x : PatchStatus)
    (xs : List PatchStatus) : pyMaxCount statuses x xs ∈ x :: xs := by
  induction xs generalizing x with
  | nil => simp [pyMaxCount]
  | cons y ys ih =>
    rw [pyMaxCount_cons]
    rcases List.mem_cons.mp (ih (if statuses.count y > statuses.count x then y else x)) with
      h | h
    · rw [h]
      by_cases hc : statuses.count y > statuses.count x
      · simp [hc]
      · simp [hc]
    · exact List.mem_cons_of_mem _ (List.mem_cons_of_mem _ h)

theorem pyMaxCount_count_le (statuses : List PatchStatus) (x : PatchStatus)
    (xs : List PatchStatus) :
    ∀ s ∈ x :: xs, statuses.count s ≤ statuses.count (pyMaxCount statuses x xs) := by
  induction xs generalizing x with
  | nil =>
    intro s hs
    rcases List.mem_cons.mp hs with rfl | hs
    · exact Nat.le_refl _
    · exact absurd hs (List.not_mem_nil s)
  | cons y ys ih =>
    intro s hs
    rw [pyMaxCount_cons]
    have hx : statuses.count x ≤
        statuses.count (if statuses.count y > statuses.count x then y else x) := by
      split <;> omega
    have hy : statuses.count y ≤
        statuses.count (if statuses.count y > statuses.count x then y else x) := by
      split <;> omega
    rcases List.mem_cons.mp hs with rfl | hs'
    · exact le_trans hx (ih _ _ (List.mem_cons_self _ ys))
    rcases List.mem_cons.mp hs' with rfl | hs''
    · exact le_trans hy (ih _ _ (List.mem_cons_self _ ys))
    · exact ih _ s (List.mem_cons_of_mem _ hs'')

/-! ### Claim theorems -/

/-- Claim C1, counterexample: the definitions section `[A]` with a 1-byte
`original` and a 2-byte `modified` is not rejected — `load_ini` emits it
as a Feature whose patch has `original` and `modified` of different
lengths, and raises no error of any kind. -/
theorem C1_counterexample :
    loadIni ["[A]", "offset = 0x10", "original = 00", "modified = FF FF"] =
      ([⟨some "Feature A", some "", [⟨16, [0], [255, 255]⟩]⟩], none) ∧
    ∃ f ∈ (loadIni ["[A]", "offset = 0x10", "original = 00", "modified = FF FF"]).1,
      ∃ p ∈ f.patches, p.original.length ≠ p.modified.length := by
  decide

/-- Claim C1, amended: `load_ini` performs no length comparison at all —
whenever the pending `offset`/`original`/`modified` triple is complete it
is closed into a Patch and the section is emitted as a Feature even when
the two byte sequences have different lengths; no `LengthMismatch` error
exists in the program. -/
theorem C1_no_length_check (c : CurFeature) (feats : List Feature) (o : Nat)
    (a b : List Nat) (ho : c.offset = some o) (ha : c.original = some a)
    (hb : c.modified = some b) (_hne : a.length ≠ b.length) :
    closePending c = .ok ⟨c.name, c.description, none, none, none, c.patches ++ [⟨o, a, b⟩]⟩ ∧
    finishCur feats c = feats ++ [⟨c.name, c.description, c.patches ++ [⟨o, a, b⟩]⟩] := by
  obtain ⟨n, dsc, o', a', b', ps⟩ := c
  simp only at ho ha hb
  subst ho; subst ha; subst hb
  refine ⟨rfl, ?_⟩
  simp [finishCur, toFeature]

/-- Claim C1, witness for the amended theorem at a concrete accumulator
with a 1-byte `original` and a 2-byte `modified`. -/
theorem C1_no_length_check_witness :
    closePending ⟨none, none, some 16, some [0], some [255, 255], []⟩ =
      .ok ⟨none, none, none, none, none, [⟨16, [0], [255, 255]⟩]⟩ ∧
    finishCur [] ⟨none, none, some 16, some [0], some [255, 255], []⟩ =
      [⟨none, none, [⟨16, [0], [255, 255]⟩]⟩] :=
  C1_no_length_check ⟨none, none, some 16, some [0], some [255, 255], []⟩ [] 16 [0]
    [255, 255] rfl rfl rfl (by decide)

/-- Claim C2, counterexample: two equal-length, in-bounds patches of one
feature may overlap; then applying Modified and then Original leaves the
last writer at the shared offset, not the first patch's original bytes.
Feature `[⟨0,[0],[1]⟩, ⟨0,[2],[3]⟩]` on the file `[9]` ends as `[2]`,
and the first patch's original is `[0]`. -/
theorem C2_counterexample :
    (∀ p ∈ [Patch.mk 0 [0] [1], Patch.mk 0 [2] [3]],
      p.original.length = p.modified.length) ∧
    InBounds [Patch.mk 0 [0] [1], Patch.mk 0 [2] [3]] TargetState.original [9] ∧
    readRomBytes
        (applyFeature
          (applyFeature [9] [Patch.mk 0 [0] [1], Patch.mk 0 [2] [3]] TargetState.modified)
          [Patch.mk 0 [0] [1], Patch.mk 0 [2] [3]] TargetState.original)
        0 1 ≠ [0] := by
  decide

/-- Claim C2, amended with pairwise-disjoint patch ranges: for a feature
whose patches have equal-length original/modified data, pairwise
non-overlapping ranges and in-bounds offsets, applying Set All Modified
and then Set All Original restores at every patch offset exactly that
patch's original bytes. -/
theorem C2_roundtrip (file : List Nat) (ps : List Patch)
    (hlen : ∀ p ∈ ps, p.original.length = p.modified.length)
    (hd : PatchesDisjoint ps) (hb : InBounds ps TargetState.original file) :
    ∀ p ∈ ps,
      readRomBytes
        (applyFeature (applyFeature file ps TargetState.modified) ps TargetState.original)
        p.offset p.original.length = p.original := by
  have hbm : InBounds ps TargetState.modified file := by
    intro p hp
    have h1 := hb p hp
    have h2 := hlen p hp
    simp only [selectData] at h1 ⊢
    omega
  have hlen1 : (applyFeature file ps TargetState.modified).length = file.length :=
    applyFeature_length hbm
  have hb1 : InBounds ps TargetState.original (applyFeature file ps TargetState.modified) := by
    intro p hp; rw [hlen1]; exact hb p hp
  intro p hp
  refine readRomBytes_eq rfl fun k hk => ?_
  have hc : covers TargetState.original p (p.offset + k) := by
    refine ⟨by omega, ?_⟩
    simp only [selectData]
    omega
  rw [applyFeature_getElem? hb1 (p.offset + k), lastCover_original_of_mem hd hp hc,
    show p.offset + k - p.offset = k by omega]
  obtain ⟨b, hob⟩ : ∃ b, p.original[k]? = some b := ⟨_, List.getElem?_eq_getElem hk⟩
  rw [hob]
  rfl

/-- Claim C2, witness: round trip on the file `[0, 0]` with one 2-byte
patch restores the original bytes `[7, 8]`. -/
theorem C2_roundtrip_witness :
    readRomBytes
      (applyFeature (applyFeature [0, 0] [Patch.mk 0 [7, 8] [1, 2]] TargetState.modified)
        [Patch.mk 0 [7, 8] [1, 2]] TargetState.original)
      0 2 = [7, 8] :=
  C2_roundtrip [0, 0] [Patch.mk 0 [7, 8] [1, 2]] (by decide) (by decide) (by decide)
    (Patch.mk 0 [7, 8] [1, 2]) (by decide)

/-- Claim C3, counterexample: line 186 computes
`max(set(statuses), key=statuses.count)`, and `set` iteration order is
not specified (string hashes are randomized per process). Both
`[original, modified]` and `[modified, original]` are legitimate
iteration orders of `set([modified, original])`, and Python's `max`
returns the first maximal element of the iteration order, so the
two-patch tie `[Modified, Original]` can aggregate to `Original` just as
well as to `Modified`: the claimed deterministic first-in-patch-order
tie-break does not hold. -/
theorem C3_counterexample :
    IsSetEnum [PatchStatus.original, PatchStatus.modified]
      [PatchStatus.modified, PatchStatus.original] ∧
    pyMaxCount [PatchStatus.modified, PatchStatus.original] PatchStatus.original
      [PatchStatus.modified] = PatchStatus.original ∧
    pyMaxCount [PatchStatus.modified, PatchStatus.original] PatchStatus.modified
      [PatchStatus.original] = PatchStatus.modified := by
  refine ⟨⟨by decide, fun s => by cases s <;> simp⟩, by decide, by decide⟩

/-- Claim C3, amended: the aggregation is a plurality vote — for every
iteration order of the distinct statuses, the result occurs in the
status list and its occurrence count is maximal — but on a tie the
winner depends on the unspecified set iteration order, not on patch
order. -/
theorem C3_plurality (statuses : List PatchStatus) (x : PatchStatus)
    (xs : List PatchStatus) (h : IsSetEnum (x :: xs) statuses) :
    pyMaxCount statuses x xs ∈ statuses ∧
    ∀ s ∈ statuses, statuses.count s ≤ statuses.count (pyMaxCount statuses x xs) := by
  obtain ⟨-, hmem⟩ := h
  refine ⟨(hmem _).mp (pyMaxCount_mem statuses x xs), fun s hs => ?_⟩
  exact pyMaxCount_count_le statuses x xs s ((hmem s).mpr hs)

/-- Claim C3, witness for the plurality theorem on the status list
`[modified, original, modified]` enumerated as `[modified, original]`. -/
theorem C3_plurality_witness :
    pyMaxCount [PatchStatus.modified, PatchStatus.original, PatchStatus.modified]
      PatchStatus.modified [PatchStatus.original] ∈
      [PatchStatus.modified, PatchStatus.original, PatchStatus.modified] ∧
    List.count PatchStatus.original
        [PatchStatus.modified, PatchStatus.original, PatchStatus.modified] ≤
      List.count
        (pyMaxCount [PatchStatus.modified, PatchStatus.original, PatchStatus.modified]
          PatchStatus.modified [PatchStatus.original])
        [PatchStatus.modified, PatchStatus.original, PatchStatus.modified] := by
  have H := C3_plurality [PatchStatus.modified, PatchStatus.original, PatchStatus.modified]
    PatchStatus.modified [PatchStatus.original] ⟨by decide, fun s => by cases s <;> simp⟩
  exact ⟨H.1, H.2 PatchStatus.original (by decide)⟩

/-- Claim C4, counterexample: a definitions file with the well-formed
single-patch section `[Good]` followed by the malformed section `[Bad]`
(unparsable hex token `GG`) does not yield one Feature plus one reported
error — the load aborts with an unhandled `ValueError` and yields no
features at all (the pending Good triple was never closed into a patch,
so `[Good]` was dropped at the `[Bad]` header). -/
theorem C4_counterexample :
    loadIni ["[Good]", "offset = 0x10", "original = 00", "modified = FF",
        "[Bad]", "offset = 0x20", "original = GG", "modified = 00"] =
      ([], some PyErr.valueError) ∧
    (loadIni ["[Good]", "offset = 0x10", "original = 00", "modified = FF",
        "[Bad]", "offset = 0x20", "original = GG", "modified = 00"]).1.length ≠ 1 := by
  decide

/-- Claim C4, amended: a malformed hex token aborts the whole load with
an unhandled `ValueError` (there is no typed `ParseError`); features
already appended to `self.features` before the failing line survive in
place. Here the two-patch section `[Good]` has its first patch closed by
the repeated `offset` key, so `[Good]` is appended (with only that one
patch — its pending second triple is lost) before `[Bad]` aborts the
load. -/
theorem C4_abort_keeps_closed_features :
    loadIni ["[Good]", "offset = 0x10", "original = 00", "modified = FF",
        "offset = 0x14", "original = 01", "modified = FE",
        "[Bad]", "offset = 0x20", "original = GG"] =
      ([⟨some "Feature Good", some "", [⟨16, [0], [255]⟩]⟩], some PyErr.valueError) := by
  decide

/-- Claim C5, counterexample: for the patch at offset 1 with 2-byte data
on the 2-byte file `[0, 1]` (so `offset + length` exceeds the file
size), the read silently returns the single available byte and the
status is `Unknown` — not `ReadError`, and no `TruncatedRead` error
exists; a write past end-of-file silently extends the file
(`writeRomBytes [0] 2 [5] = [0, 0, 5]`) instead of reporting an error. -/
theorem C5_counterexample :
    patchStatus (some [0, 1]) ⟨1, [170, 187], [204, 221]⟩ = PatchStatus.unknown ∧
    patchStatus (some [0, 1]) ⟨1, [170, 187], [204, 221]⟩ ≠ PatchStatus.readError ∧
    readRomBytes [0, 1] 1 2 = [1] ∧
    writeRomBytes [0] 2 [5] = [0, 0, 5] := by
  decide

/-- Claim C5, amended: an out-of-bounds patch is handled silently, not as
a reportable error: the read returns fewer bytes than requested, the
patch never classifies as `Modified` (and never as `ReadError`, which
arises only when the ROM cannot be opened), and a write at any offset
always succeeds, extending the file to `max len (offset + |data|)`. -/
theorem C5_silent_oob (file : List Nat) (p : Patch) (hne : p.modified ≠ [])
    (h : file.length < p.offset + p.modified.length) :
    (readRomBytes file p.offset p.modified.length).length < p.modified.length ∧
    patchStatus (some file) p ≠ PatchStatus.readError ∧
    patchStatus (some file) p ≠ PatchStatus.modified ∧
    ∀ (f : List Nat) (o : Nat) (d : List Nat),
      (writeRomBytes f o d).length = max f.length (o + d.length) := by
  have hm : 0 < p.modified.length := List.length_pos.mpr hne
  have hr : (readRomBytes file p.offset p.modified.length).length < p.modified.length := by
    rw [readRomBytes_length]; omega
  have hcur : readRomBytes file p.offset p.modified.length ≠ p.modified := by
    intro heq; rw [heq] at hr; omega
  refine ⟨hr, ?_, ?_, fun f o d => writeRomBytes_length f o d⟩
  · simp only [patchStatus, classify, if_neg hcur]
    split <;> decide
  · simp only [patchStatus, classify, if_neg hcur]
    split <;> decide

/-- Claim C5, witness for the amended theorem at the concrete
out-of-bounds patch on the file `[0, 1]`. -/
theorem C5_silent_oob_witness :
    (readRomBytes [0, 1] 1 2).length < 2 ∧
    patchStatus (some [0, 1]) ⟨1, [170, 187], [204, 221]⟩ ≠ PatchStatus.readError ∧
    patchStatus (some [0, 1]) ⟨1, [170, 187], [204, 221]⟩ ≠ PatchStatus.modified ∧
    (writeRomBytes [0] 2 [5]).length = 3 := by
  have H := C5_silent_oob [0, 1] ⟨1, [170, 187], [204, 221]⟩ (by decide) (by decide)
  exact ⟨H.1, H.2.1, H.2.2.1, (H.2.2.2 [0] 2 [5]).trans (by decide)⟩

/-- Claim C6, confirmed: the status of a successfully read byte sequence
is `Modified` when it equals `patch.modified`, `Original` when it
differs from `patch.modified` and equals `patch.original`, `Unknown`
otherwise; when the ROM cannot be opened the status is `ReadError`
without any byte comparison, and a successful read is always classified
on exactly `len(patch.modified)` bytes read at `patch.offset`. -/
theorem C6_classification (current : List Nat) (p : Patch) :
    (current = p.modified → classify current p = PatchStatus.modified) ∧
    (current ≠ p.modified → current = p.original →
      classify current p = PatchStatus.original) ∧
    (current ≠ p.modified → current ≠ p.original →
      classify current p = PatchStatus.unknown) ∧
    patchStatus none p = PatchStatus.readError ∧
    (∀ file : List Nat,
      patchStatus (some file) p =
        classify (readRomBytes file p.offset p.modified.length) p) := by
  refine ⟨fun h => ?_, fun h1 h2 => ?_, fun h1 h2 => ?_, rfl, fun file => rfl⟩
  · simp [classify, h]
  · rw [classify, if_neg h1, if_pos h2]
  · rw [classify, if_neg h1, if_neg h2]

/-- Claim C6, witness: the four classification outcomes at the concrete
patch `⟨0, [0], [1]⟩`. -/
theorem C6_classification_witness :
    classify [1] ⟨0, [0], [1]⟩ = PatchStatus.modified ∧
    classify [0] ⟨0, [0], [1]⟩ = PatchStatus.original ∧
    classify [9] ⟨0, [0], [1]⟩ = PatchStatus.unknown ∧
    patchStatus none ⟨0, [0], [1]⟩ = PatchStatus.readError :=
  ⟨(C6_classification [1] ⟨0, [0], [1]⟩).1 rfl,
    (C6_classification [0] ⟨0, [0], [1]⟩).2.1 (by decide) rfl,
    (C6_classification [9] ⟨0, [0], [1]⟩).2.2.1 (by decide) (by decide),
    (C6_classification [9] ⟨0, [0], [1]⟩).2.2.2.1⟩

/-- Claim C7, confirmed: for a feature whose patches lie within the
file, applying Set All Modified twice leaves the binary byte-identical
to applying it once. -/
theorem C7_idempotent (file : List Nat) (ps : List Patch)
    (h : InBounds ps TargetState.modified file) :
    applyFeature (applyFeature file ps TargetState.modified) ps TargetState.modified =
      applyFeature file ps TargetState.modified := by
  have h2 : InBounds ps TargetState.modified (applyFeature file ps TargetState.modified) := by
    intro p hp; rw [applyFeature_length h]; exact h p hp
  refine List.ext_getElem? fun i => ?_
  rw [applyFeature_getElem? h2 i, applyFeature_getElem? h i]
  cases lastCover TargetState.modified i ps <;> rfl

/-- Claim C7, witness: idempotence at the concrete file `[0, 0]` with
one patch. -/
theorem C7_idempotent_witness :
    applyFeature (applyFeature [0, 0] [Patch.mk 0 [7] [1]] TargetState.modified)
        [Patch.mk 0 [7] [1]] TargetState.modified =
      applyFeature [0, 0] [Patch.mk 0 [7] [1]] TargetState.modified :=
  C7_idempotent [0, 0] [Patch.mk 0 [7] [1]] (by decide)

/-- Claim C8, confirmed: for in-bounds patches, applying a feature keeps
the file length, leaves every byte outside the union of the patches'
`[offset, offset + len)` ranges unchanged, and each individual write
places exactly its data at `[offset, offset + len)`. -/
theorem C8_frame (file : List Nat) (ps : List Patch) (t : TargetState)
    (h : InBounds ps t file) :
    (applyFeature file ps t).length = file.length ∧
    (∀ i, (∀ p ∈ ps, ¬ covers t p i) → (applyFeature file ps t)[i]? = file[i]?) ∧
    ∀ (f : List Nat) (o : Nat) (d : List Nat), o + d.length ≤ f.length →
      ∀ k, k < d.length → (writeRomBytes f o d)[o + k]? = d[k]? := by
  refine ⟨applyFeature_length h, fun i hi => ?_, fun f o d hfd k hk => ?_⟩
  · rw [applyFeature_getElem? h i, lastCover_eq_none hi]
    rfl
  · rw [writeRomBytes_getElem? hfd,
      if_pos (show o ≤ o + k ∧ o + k < o + d.length by omega),
      show o + k - o = k by omega]

/-- Claim C8, witness: frame property at the concrete file `[5, 6, 7]`
with one patch at offset 1. -/
theorem C8_frame_witness :
    (applyFeature [5, 6, 7] [Patch.mk 1 [0] [9]] TargetState.modified).length = 3 ∧
    (applyFeature [5, 6, 7] [Patch.mk 1 [0] [9]] TargetState.modified)[0]? = some 5 ∧
    (writeRomBytes [5, 6, 7] 1 [9])[1]? = some 9 := by
  have H := C8_frame [5, 6, 7] [Patch.mk 1 [0] [9]] TargetState.modified (by decide)
  exact ⟨H.1, (H.2.1 0 (by decide)).trans rfl,
    (H.2.2 [5, 6, 7] 1 [9] (by decide) 0 (by decide)).trans rfl⟩

/-- Claim C9, confirmed: when a section specifies `offset` twice without
both `original` and `modified` appearing in between, closing the pending
patch pops a missing key and the load aborts with an unhandled
`KeyError` (shown both with only `original` set and with neither set). -/
theorem C9_double_offset_keyerror :
    loadIni ["[A]", "offset = 0x10", "original = 00", "offset = 0x20"] =
      ([], some PyErr.keyError) ∧
    loadIni ["[A]", "offset = 0x10", "offset = 0x20"] = ([], some PyErr.keyError) := by
  decide

/-- Claim C10, confirmed: a complete `offset`/`original`/`modified`
triple before any `[section]` header is emitted as a Feature built from
the initial accumulator, which has no `name` and no `description` key,
and rendering that feature's status line raises `KeyError`. -/
theorem C10_nameless_feature :
    loadIni ["offset = 0x10", "original = 00", "modified = FF"] =
      ([⟨none, none, [⟨16, [0], [255]⟩]⟩], none) ∧
    ∀ status : String,
      displayLine ⟨none, none, [⟨16, [0], [255]⟩]⟩ status = .error PyErr.keyError :=
  ⟨by decide, fun _ => rfl⟩

end EpicEXE
